import Mathlib

/-!
Verification development for the athle.fr competition scraper (src/athle.py).

The Python source is shallowly embedded: HTML documents are modelled by the
observations the parser makes on them via BeautifulSoup (rows and cells of a
listing table, anchors and paragraphs of a detail page), network calls are
modelled as oracle functions returning `Option` results (`none` models the
exception path of `requests`), and the handful of regular expressions used by
the source are hand-rolled matchers on `List Char` with backtracking
semantics matching the corresponding Python pattern.  Side effects that the
claims talk about (the politeness delay between detail fetches) are modelled
as an explicit event trace.
-/

namespace Athle

/-! Section: Configuration constants (src/athle.py lines 17-21) -/

def COMPETITIONS_PER_PAGE : Nat := 250

def DEFAULT_DELAY : ℚ := 1

/-- The fixed site base used to absolutize site-relative hrefs
(the f-string at src/athle.py line 110). -/
def SITE_BASE : String := "https://www.athle.fr"

/-! Section: Characters used by the embedded patterns -/

def aposChar : Char := Char.ofNat 39

def slashChar : Char := Char.ofNat 47

def colonChar : Char := Char.ofNat 58

def dashChar : Char := Char.ofNat 45

def dotChar : Char := Char.ofNat 46

def atChar : Char := Char.ofNat 64

def underscoreChar : Char := Char.ofNat 95

def newlineChar : Char := Char.ofNat 10

/-! Section: List-of-characters string primitives.

Python string operations are modelled explicitly on `List Char` so that all
definitions are executable and kernel-reducible.  `String.data` converts at
the boundaries. -/

/-- Python `sub in s` (substring containment, used for the label tests). -/
def listContainsSub (pat : List Char) : List Char → Bool
  | [] => List.isPrefixOf pat []
  | c :: rest => List.isPrefixOf pat (c :: rest) || listContainsSub pat rest

/-- Python `s.replace(pat, rep)`: replaces non-overlapping occurrences left
to right (used for `href.replace("mailto:", "")`).  The fuel argument is
only a structural-recursion bound; `s.length` fuel always suffices since
every step consumes at least one character of a non-empty pattern. -/
def listReplaceFuel (pat rep : List Char) : Nat → List Char → List Char
  | _, [] => []
  | 0, s => s
  | fuel + 1, c :: rest =>
    if pat ≠ [] ∧ List.isPrefixOf pat (c :: rest) then
      rep ++ listReplaceFuel pat rep fuel ((c :: rest).drop pat.length)
    else
      c :: listReplaceFuel pat rep fuel rest

def listReplace (pat rep s : List Char) : List Char :=
  listReplaceFuel pat rep s.length s

/-- Python `s.strip()` restricted to ASCII whitespace. -/
def pyStrip (cs : List Char) : List Char :=
  ((cs.dropWhile Char.isWhitespace).reverse.dropWhile Char.isWhitespace).reverse

/-- Python `s.lower()` (ASCII case folding; only the `"stade"` test uses it). -/
def toLowerL (cs : List Char) : List Char := cs.map Char.toLower

/-- Characters after the first colon, then stripped: models
`text.split(":", 1)[1].strip() if ":" in text else ""`. -/
def splitFirstColon : List Char → Option (List Char)
  | [] => none
  | c :: rest => if c = colonChar then some rest else splitFirstColon rest

def afterColon (text : String) : String :=
  match splitFirstColon text.data with
  | some tail => String.mk (pyStrip tail)
  | none => ""

/-! Section: Hand-rolled regular-expression matchers -/

/-- Class `\w` of the source regexes (ASCII model of Python word characters). -/
def wordChar (c : Char) : Bool := c.isAlphanum || c = underscoreChar

/-- A character of the `[\w\.-]` classes of the email regexes. -/
def emailChar (c : Char) : Bool := wordChar c || c = dotChar || c = dashChar

/-- Leftmost-occurrence search: applies the anchored matcher `tryAt` at each
suffix in turn, as `re.search` does. -/
def searchWith (tryAt : List Char → Option (List Char)) : List Char → Option (List Char)
  | [] => tryAt []
  | c :: rest =>
    match tryAt (c :: rest) with
    | some r => some r
    | none => searchWith tryAt rest

/-- Valid positions for the `\.` of `[\w\.-]+@[\w\.-]+\.\w+` inside the
greedy post-`@` run `r2`: a dot at index `j ≥ 1` followed by a word
character.  The backtracking engine picks the largest such `j`. -/
def validDotIdx (r2 : List Char) : List Nat :=
  (List.range r2.length).filter fun j =>
    (j != 0) && (r2.get? j == some dotChar) &&
      (match r2.get? (j + 1) with
       | some c => wordChar c
       | none => false)

/-- Anchored match of `[\w\.-]+@[\w\.-]+\.\w+` (greedy, with Python
backtracking semantics); returns the matched text. -/
def matchEmailAnchored (cs : List Char) : Option (List Char) :=
  let r1 := cs.takeWhile emailChar
  if r1 = [] then none
  else
    match cs.drop r1.length with
    | c :: rest2 =>
      if c = atChar then
        let r2 := rest2.takeWhile emailChar
        match (validDotIdx r2).getLast? with
        | some j =>
          let w := (r2.drop (j + 1)).takeWhile wordChar
          some (r1 ++ [atChar] ++ r2.take (j + 1) ++ w)
        | none => none
      else none
    | [] => none

/-- Anchored match of `numéro : (\d+)` (src/athle.py line 85); returns the
captured digit run. -/
def tryNumero (cs : List Char) : Option (List Char) :=
  if List.isPrefixOf "numéro : ".data cs then
    let ds := (cs.drop "numéro : ".data.length).takeWhile Char.isDigit
    if ds = [] then none else some ds
  else none

/-! Section: Listing page model and `parse_competitions` (src/athle.py 65-135).

A listing page is modelled by the sequence of `tr.clignotant` rows the parser
iterates over; a cell by the three observations made on it: its stripped
text, the `title` attribute of its first titled anchor (`find("a",
title=True)`), and the `href` of its first anchor (`find("a")`). -/

structure Cell where
  text : String := ""
  titledLinkTitle : Option String := none
  firstLinkHref : Option String := none
deriving DecidableEq

structure Row where
  cells : List Cell
deriving DecidableEq

structure ListingPage where
  rows : List Row
deriving DecidableEq

/-- One competition record (the dict built at src/athle.py lines 112-132).
Enrichment fields default to empty exactly as in the source. -/
structure Competition where
  Competition_ID : String := ""
  Date : String := ""
  Event : String := ""
  Location : String := ""
  Type_ : String := ""
  Level : String := ""
  Detail_URL : String := ""
  Page : Nat := 0
  Organizer_Name : String := ""
  Organizer_Address : String := ""
  Organizer_Phone : String := ""
  Organizer_Email : String := ""
  Organizer_Website : String := ""
  Stadium_Address : String := ""
  Competition_Code : String := ""
  Contact_Person : String := ""
  Events_List : String := ""
  Events_Count : Nat := 0
deriving DecidableEq

/-- Cell access `cells[i]` under the `len(cells) >= 7` guard (a default cell stands for
the positions the source never reaches). -/
def cellAt (cells : List Cell) (i : Nat) : Cell := (cells.get? i).getD {}

/-- Models `cells[i].get_text(strip=True) if len(cells) > i else ""`. -/
def cellText (cells : List Cell) (i : Nat) : String :=
  match cells.get? i with
  | some c => c.text
  | none => ""

/-- Competition id extraction (src/athle.py lines 79-86). -/
def competition_id_of (cells : List Cell) : String :=
  match (cellAt cells 0).titledLinkTitle with
  | some t =>
    if t = "" then ""
    else
      match searchWith tryNumero t.data with
      | some ds => String.mk ds
      | none => ""
  | none => ""

def startsWithSlash (s : String) : Bool :=
  match s.data with
  | c :: _ => c = slashChar
  | [] => false

/-- Detail-URL extraction (src/athle.py lines 103-110): the first anchor of
cell 6; a site-relative href is absolutized against `SITE_BASE`. -/
def detail_url_of (cells : List Cell) : String :=
  if 7 ≤ cells.length then
    match (cellAt cells 6).firstLinkHref with
    | some href =>
      if href = "" then ""
      else if startsWithSlash href then SITE_BASE ++ href else href
    | none => ""
  else ""

/-- The record built for one qualifying row (src/athle.py lines 79-132). -/
def row_record (page : Nat) (row : Row) : Competition :=
  { Competition_ID := competition_id_of row.cells
    Date := cellText row.cells 0
    Event := cellText row.cells 1
    Location := cellText row.cells 2
    Type_ := cellText row.cells 3
    Level := cellText row.cells 4
    Detail_URL := detail_url_of row.cells
    Page := page }

/-- The row loop of `parse_competitions`: rows with fewer than 7 cells are
skipped (`continue`), the rest are appended in order. -/
def parse_rows (page : Nat) : List Row → List Competition
  | [] => []
  | row :: rest =>
    if row.cells.length < 7 then parse_rows page rest
    else row_record page row :: parse_rows page rest

/-- Models `parse_competitions` (src/athle.py lines 65-135). -/
def parse_competitions (html : ListingPage) (page : Nat) : List Competition :=
  parse_rows page html.rows

/-! Section: Pagination driver (src/athle.py 50-63 and the page loops of
`scrape_competitions`, lines 161-181 / 187-206).

The network is an oracle `fetchHtml : Nat → Option ListingPage`; `none`
models the exception path of `scrape_page` (which returns `([], False)`).
The unbounded `while True` loop is embedded with explicit fuel; one unit of
fuel corresponds to one permitted iteration. -/

/-- Models `scrape_page` (src/athle.py lines 50-63). -/
def scrape_page (fetchHtml : Nat → Option ListingPage) (page : Nat) :
    List Competition × Bool :=
  match fetchHtml page with
  | some html => (parse_competitions html page, true)
  | none => ([], false)

/-- The page loop of `scrape_competitions`: append each page, stop on fetch
failure, an empty page, or a page shorter than `COMPETITIONS_PER_PAGE`
(included before stopping); otherwise continue with `page + 1`. -/
def paginate (fetchHtml : Nat → Option ListingPage) :
    Nat → Nat → List Competition → List Competition
  | 0, _, acc => acc
  | fuel + 1, page, acc =>
    let (competitions, success) := scrape_page fetchHtml page
    if success = false ∨ competitions = [] then acc
    else
      let acc2 := acc ++ competitions
      if competitions.length < COMPETITIONS_PER_PAGE then acc2
      else paginate fetchHtml fuel (page + 1) acc2

/-! Section: Batch splitter (src/athle.py lines 142-184).

`datetime.strptime`/`timedelta(days=...)` arithmetic is day arithmetic on
the proleptic Gregorian calendar; dates are embedded as day numbers via
`daysFromCivil`, and the date loop of the batch mode becomes
`split_batches`. -/

/-- Day number of a proleptic Gregorian calendar date (days since
1970-01-01), the standard civil-from-days inverse; models the value of a
Python `datetime` date for day arithmetic. -/
def daysFromCivil (y m d : Int) : Int :=
  let y2 := if m ≤ 2 then y - 1 else y
  let era := (if 0 ≤ y2 then y2 else y2 - 399) / 400
  let yoe := y2 - era * 400
  let mp := (m + 9) % 12
  let doy := (153 * mp + 2) / 5 + d - 1
  let doe := yoe * 365 + yoe / 4 - yoe / 100 + doy
  era * 146097 + doe - 719468

/-- The date loop of batch mode: starting from `cur`, emit
`(cur, min (cur + batch_days) endD)` and advance to one day past the batch
end, until `cur > endD` (src/athle.py lines 149-150 and 183). -/
def split_batches (endD : Int) (batch_days : Nat) (cur : Int) :
    List (Int × Int) :=
  if h : cur ≤ endD then
    let curEnd := min (cur + batch_days) endD
    (cur, curEnd) :: split_batches endD batch_days (curEnd + 1)
  else []
termination_by (endD + 1 - cur).toNat
decreasing_by
  simp_wf
  omega

/-- Models `scrape_competitions` (src/athle.py lines 137-208): in batch mode the
date loop drives one inner pagination per batch with the accumulator shared
across batches; otherwise a single pagination run. -/
def scrape_competitions (fetchHtml : Int × Int → Nat → Option ListingPage)
    (fuel : Nat) (batch_mode : Bool) (frmdate1 frmdate2 : Int)
    (batch_days : Nat) : List Competition :=
  if batch_mode then
    (split_batches frmdate2 batch_days frmdate1).foldl
      (fun acc b => paginate (fetchHtml b) fuel 1 acc) []
  else
    paginate (fetchHtml (frmdate1, frmdate2)) fuel 1 []

/-! Section: Detail page model and `parse_detail_page` (src/athle.py 220-311).

A detail page is modelled by the observations the parser makes: the
`infoPratique` section (anchor hrefs, paragraph texts, full section text),
the text of the first `div.club-card` of the document, and for the
`epreuves` section the optional `h3.text-normal` heading text of each of its
`div.club-card` event cards, in document order. -/

structure InfoSection where
  anchorHrefs : List (Option String) := []
  paragraphs : List String := []
  fullText : String := ""
deriving DecidableEq

structure DetailSoup where
  infoPratique : Option InfoSection := none
  clubCard : Option String := none
  epreuves : Option (List (Option String)) := none
deriving DecidableEq

/-- The `detail_data` dict while it is being built: a key may be absent
(`none`), which the source distinguishes from an empty value. -/
structure DetailDict where
  Organizer_Name : Option String := none
  Organizer_Address : Option String := none
  Organizer_Phone : Option String := none
  Organizer_Email : Option String := none
  Organizer_Website : Option String := none
  Stadium_Address : Option String := none
  Competition_Code : Option String := none
  Contact_Person : Option String := none
  Events_List : Option String := none
  Events_Count : Option Nat := none
deriving DecidableEq

/-- The result of `parse_detail_page` after the final field-defaulting loop
(src/athle.py lines 301-309): every field present. -/
structure DetailData where
  Organizer_Name : String
  Organizer_Address : String
  Organizer_Phone : String
  Organizer_Email : String
  Organizer_Website : String
  Stadium_Address : String
  Competition_Code : String
  Contact_Person : String
  Events_List : String
  Events_Count : Nat
deriving DecidableEq

/-- Method 1 (src/athle.py lines 228-234): among the anchors whose href
contains `mailto:`, the first whose href with `mailto:` removed and
stripped is non-empty. -/
def firstNonEmptyMailto : List String → Option String
  | [] => none
  | h :: t =>
    if String.mk (pyStrip (listReplace "mailto:".data [] h.data)) = "" then
      firstNonEmptyMailto t
    else some (String.mk (pyStrip (listReplace "mailto:".data [] h.data)))

def mailto_email (s : InfoSection) : Option String :=
  firstNonEmptyMailto
    ((s.anchorHrefs.filterMap id).filter fun h => listContainsSub "mailto:".data h.data)

/-- The two spellings of the organizer-name label (typographic and ASCII
apostrophe, src/athle.py line 241). -/
def nomLabelTypo : List Char := "Nom de l’organisateur".data

def nomLabelAscii : List Char :=
  "Nom de l".data ++ [aposChar] ++ "organisateur".data

/-- One iteration of the paragraph loop of Method 2 (src/athle.py lines
238-264): an if/elif chain keyed on substring labels.  The Email branch
only fires when `Organizer_Email` is not yet in the dict. -/
def process_paragraph (d : DetailDict) (text : String) : DetailDict :=
  if listContainsSub nomLabelTypo text.data
      || listContainsSub nomLabelAscii text.data then
    { d with Organizer_Name := some (afterColon text) }
  else if listContainsSub "Adresse".data text.data
      && !listContainsSub "stade".data (toLowerL text.data) then
    { d with Organizer_Address := some (afterColon text) }
  else if listContainsSub "Téléphone".data text.data then
    { d with Organizer_Phone := some (afterColon text) }
  else if listContainsSub "Email".data text.data ∧ d.Organizer_Email = none then
    match searchWith matchEmailAnchored (afterColon text).data with
    | some m => { d with Organizer_Email := some (String.mk m) }
    | none =>
      if afterColon text ≠ "" ∧ afterColon text ≠ "-" then
        { d with Organizer_Email := some (afterColon text) }
      else d
  else if listContainsSub "Site internet".data text.data then
    if afterColon text ≠ "" ∧ afterColon text ≠ "-" then
      { d with Organizer_Website := some (afterColon text) }
    else d
  else if listContainsSub "Adresse du stade".data text.data then
    { d with Stadium_Address := some (afterColon text) }
  else d

/-- Anchored match of the Method-3 pattern
`Email\s*[:\-]?\s*([\w\.-]+@[\w\.-]+\.\w+)` (case-insensitive label,
src/athle.py line 270); returns group 1. -/
def tryEmailLabel (cs : List Char) : Option (List Char) :=
  match cs with
  | c1 :: c2 :: c3 :: c4 :: c5 :: rest =>
    if toLowerL [c1, c2, c3, c4, c5] = "email".data then
      let r1 := rest.dropWhile Char.isWhitespace
      match r1 with
      | c :: r2 =>
        if c = colonChar ∨ c = dashChar then
          match matchEmailAnchored (r2.dropWhile Char.isWhitespace) with
          | some e => some e
          | none => matchEmailAnchored r1
        else matchEmailAnchored r1
      | [] => none
    else none
  | _ => none

/-- Anchored match of `Code compétition\s*:\s*(\d+)` (src/athle.py line
279); returns the captured digits. -/
def tryCodeCompetition (cs : List Char) : Option (List Char) :=
  if List.isPrefixOf "Code compétition".data cs then
    let r1 := (cs.drop "Code compétition".data.length).dropWhile Char.isWhitespace
    match r1 with
    | c :: r2 =>
      if c = colonChar then
        let ds := (r2.dropWhile Char.isWhitespace).takeWhile Char.isDigit
        if ds = [] then none else some ds
      else none
    | [] => none
  else none

/-- Anchored match of `Personnes à contacter.*\n*(.+)` (src/athle.py line
283): `.*` consumes the rest of the label line, `\n*` the following
newlines, and group 1 is the next non-empty line; when nothing follows,
backtracking leaves the last character of the label line as group 1. -/
def tryContact (cs : List Char) : Option (List Char) :=
  if List.isPrefixOf "Personnes à contacter".data cs then
    let tail := cs.drop "Personnes à contacter".data.length
    let line := tail.takeWhile fun c => c != newlineChar
    let afterLine := tail.drop line.length
    let afterNls := afterLine.dropWhile fun c => c == newlineChar
    let grp := afterNls.takeWhile fun c => c != newlineChar
    if grp ≠ [] then some grp
    else
      match line.getLast? with
      | some c => some [c]
      | none => none
  else none

/-- The event names collected from the `epreuves` section (src/athle.py
lines 287-296): the heading text of every event card that has one. -/
def event_names (soup : DetailSoup) : List String :=
  (soup.epreuves.getD []).filterMap id

/-- The final field-defaulting loop (src/athle.py lines 301-309). -/
def finalizeDict (d : DetailDict) : DetailData :=
  { Organizer_Name := d.Organizer_Name.getD ""
    Organizer_Address := d.Organizer_Address.getD ""
    Organizer_Phone := d.Organizer_Phone.getD ""
    Organizer_Email := d.Organizer_Email.getD ""
    Organizer_Website := d.Organizer_Website.getD ""
    Stadium_Address := d.Stadium_Address.getD ""
    Competition_Code := d.Competition_Code.getD ""
    Contact_Person := d.Contact_Person.getD ""
    Events_List := d.Events_List.getD ""
    Events_Count := d.Events_Count.getD 0 }

/-- Methods 1 and 2 (src/athle.py lines 226-264): inside the
`infoPratique` section, first the mailto strategy, then the paragraph
loop. -/
def infoSectionStage (soup : DetailSoup) : DetailDict :=
  match soup.infoPratique with
  | some s =>
    let da : DetailDict :=
      match mailto_email s with
      | some e => { Organizer_Email := some e }
      | none => {}
    s.paragraphs.foldl process_paragraph da
  | none => {}

/-- Method 3 (src/athle.py lines 266-272): the whole-section regex
fallback, only when the email is still missing or empty. -/
def emailFallbackStage (soup : DetailSoup) (d : DetailDict) : DetailDict :=
  if d.Organizer_Email = none ∨ d.Organizer_Email = some "" then
    match soup.infoPratique with
    | some s =>
      match searchWith tryEmailLabel s.fullText.data with
      | some e => { d with Organizer_Email := some (String.mk (pyStrip e)) }
      | none => d
    | none => d
  else d

/-- Competition code and contact person from the club card
(src/athle.py lines 274-285). -/
def clubCardStage (cc : Option String) (d : DetailDict) : DetailDict :=
  match cc with
  | some card_text =>
    let dc :=
      match searchWith tryCodeCompetition card_text.data with
      | some ds => { d with Competition_Code := some (String.mk (pyStrip ds)) }
      | none => d
    match searchWith tryContact card_text.data with
    | some g =>
      { dc with Contact_Person := some (String.mk ((pyStrip g).take 100)) }
    | none => dc
  | none => d

/-- Events list and count (src/athle.py lines 287-299). -/
def eventsStage (soup : DetailSoup) (d : DetailDict) : DetailDict :=
  { d with
    Events_List := some (String.intercalate "; " (event_names soup))
    Events_Count := some (event_names soup).length }

/-- Models `parse_detail_page` (src/athle.py lines 220-311): mailto strategy, then
the paragraph loop, then the whole-section regex fallback, then the club
card, then the events section, then field defaulting — in source order. -/
def parse_detail_page (soup : DetailSoup) : DetailData :=
  finalizeDict (eventsStage soup
    (clubCardStage soup.clubCard
      (emailFallbackStage soup (infoSectionStage soup))))

/-! Section: Detail enrichment driver (src/athle.py 210-218 and 313-342).

The per-URL fetch is an oracle `fetchDetail : String → Option DetailSoup`
(`none` models the exception path of `scrape_detail_page`).  The observable
side effects relevant to the claims — detail fetches and `time.sleep`
calls — are recorded in an event trace. -/

inductive TraceEv where
  | fetchDetailEv (url : String)
  | sleepEv (seconds : ℚ)
deriving DecidableEq

/-- Models `scrape_detail_page` (src/athle.py lines 210-218). -/
def scrape_detail_page (fetchDetail : String → Option DetailSoup)
    (url : String) : Option DetailData :=
  (fetchDetail url).map parse_detail_page

/-- Models `comp.update(detail_data)`: the parsed dict always carries exactly the
ten enrichment keys, so the merge overwrites those and nothing else
(src/athle.py line 332). -/
def updateCompetition (c : Competition) (d : DetailData) : Competition :=
  { c with
    Organizer_Name := d.Organizer_Name
    Organizer_Address := d.Organizer_Address
    Organizer_Phone := d.Organizer_Phone
    Organizer_Email := d.Organizer_Email
    Organizer_Website := d.Organizer_Website
    Stadium_Address := d.Stadium_Address
    Competition_Code := d.Competition_Code
    Contact_Person := d.Contact_Person
    Events_List := d.Events_List
    Events_Count := d.Events_Count }

/-- The record loop of `scrape_detail_pages` (src/athle.py lines 321-340):
a record with an empty `Detail_URL` is passed through by `continue` —
which also skips the `time.sleep` at the end of the loop body; otherwise
the detail page is fetched, merged on success, and the delay observed. -/
def scrape_detail_pages_go (fetchDetail : String → Option DetailSoup) :
    List Competition → List Competition × List TraceEv
  | [] => ([], [])
  | comp :: rest =>
    let next := scrape_detail_pages_go fetchDetail rest
    if comp.Detail_URL = "" then
      (comp :: next.1, next.2)
    else
      let comp2 :=
        match scrape_detail_page fetchDetail comp.Detail_URL with
        | some d => updateCompetition comp d
        | none => comp
      (comp2 :: next.1,
        TraceEv.fetchDetailEv comp.Detail_URL :: TraceEv.sleepEv DEFAULT_DELAY :: next.2)

/-- Models `scrape_detail_pages` (src/athle.py lines 313-342), paired with its
event trace. -/
def scrape_detail_pages (fetchDetail : String → Option DetailSoup)
    (competitions : List Competition) : List Competition × List TraceEv :=
  match competitions with
  | [] => ([], [])
  | _ => scrape_detail_pages_go fetchDetail competitions

/-- Number of `time.sleep` events in a trace. -/
def countSleeps (tr : List TraceEv) : Nat :=
  (tr.filter fun e =>
    match e with
    | TraceEv.sleepEv _ => true
    | _ => false).length

/-- Modelled from the spec: an absolute URL in the sense of the data model
(section 3, `detail_url`: absolute URL or empty) — a URL carrying an
explicit http or https scheme.  Used only to state claim C6 against the
source definition `detail_url_of`. -/
def isAbsoluteHttpUrl (s : String) : Bool :=
  List.isPrefixOf "http://".data s.data || List.isPrefixOf "https://".data s.data

/-- The listing attributes of a record (data-model section 3: immutable once
created). -/
def listing_fields (c : Competition) :
    String × String × String × String × String × String × String × Nat :=
  (c.Competition_ID, c.Date, c.Event, c.Location, c.Type_, c.Level,
    c.Detail_URL, c.Page)

/-! Section: theorems -/

/-! Section: Helper lemmas -/

theorem parse_rows_eq_filter_map (page : Nat) (rows : List Row) :
    parse_rows page rows =
      (rows.filter fun r => decide (7 ≤ r.cells.length)).map (row_record page) := by
  induction rows with
  | nil => rfl
  | cons r rest ih =>
    by_cases h : r.cells.length < 7
    · have h7 : ¬ 7 ≤ r.cells.length := by omega
      simp [parse_rows, h, List.filter_cons, h7, ih]
    · have h7 : 7 ≤ r.cells.length := by omega
      simp [parse_rows, h, List.filter_cons, h7, ih]

theorem isPrefixOf_self_append (p t : List Char) :
    List.isPrefixOf p (p ++ t) = true := by
  induction p with
  | nil => simp [List.isPrefixOf]
  | cons c cs ih => simp [List.isPrefixOf, ih]

theorem siteBase_append_data (s : String) :
    (SITE_BASE ++ s).data = "https://".data ++ ("www.athle.fr".data ++ s.data) := by
  cases s with
  | mk d =>
    show (String.mk SITE_BASE.data ++ String.mk d).data = _
    have hb : SITE_BASE.data = "https://".data ++ "www.athle.fr".data := by decide
    simp [String.instAppend, String.append, hb]

theorem isAbsolute_siteBase_append (s : String) :
    isAbsoluteHttpUrl (SITE_BASE ++ s) = true := by
  unfold isAbsoluteHttpUrl
  rw [siteBase_append_data, isPrefixOf_self_append]
  simp

/-- C7: every listing row with fewer than 7 data cells is excluded from the
output of the parser entirely, and its exclusion does not abort the parsing of
the remaining rows: the output is exactly the qualifying rows, in order,
mapped to their records. -/
theorem rows_with_few_cells_excluded (html : ListingPage) (page : Nat) :
    parse_competitions html page =
      (html.rows.filter fun r => decide (7 ≤ r.cells.length)).map (row_record page) :=
  parse_rows_eq_filter_map page html.rows

/-- C6 counterexample: a row whose href neither starts with a slash nor is
absolute yields a `Detail_URL` that is neither empty nor an absolute URL,
refuting the claim that every parsed detail_url is empty or absolute. -/
theorem detail_url_not_always_absolute :
    ∃ r ∈ parse_competitions
        ⟨[⟨[{}, {}, {}, {}, {}, {},
            { firstLinkHref := some "liste.aspx" }]⟩]⟩ 1,
      r.Detail_URL ≠ "" ∧ isAbsoluteHttpUrl r.Detail_URL = false := by
  decide

/-- C6 amended: a parsed detail_url is either empty or comes from the href of the row; an href beginning with a slash is rewritten under the fixed site base
(and is then an absolute URL); any other href — in particular an
already-absolute one — is left unchanged. -/
theorem detail_url_rewriting (cells : List Cell) :
    detail_url_of cells = "" ∨
      ∃ h, (cellAt cells 6).firstLinkHref = some h ∧ h ≠ "" ∧
        ((startsWithSlash h = true ∧ detail_url_of cells = SITE_BASE ++ h ∧
            isAbsoluteHttpUrl (detail_url_of cells) = true) ∨
          (startsWithSlash h = false ∧ detail_url_of cells = h)) := by
  by_cases hlen : 7 ≤ cells.length
  · rcases hh : (cellAt cells 6).firstLinkHref with _ | href
    · left
      simp [detail_url_of, hlen, hh]
    · by_cases he : href = ""
      · left
        simp [detail_url_of, hlen, hh, he]
      · right
        refine ⟨href, rfl, he, ?_⟩
        by_cases hs : startsWithSlash href
        · have hd : detail_url_of cells = SITE_BASE ++ href := by
            simp [detail_url_of, hlen, hh, he, hs]
          exact Or.inl ⟨hs, hd, by rw [hd]; exact isAbsolute_siteBase_append href⟩
        · have hd : detail_url_of cells = href := by
            simp [detail_url_of, hlen, hh, he, hs]
          exact Or.inr ⟨by simp [hs], hd⟩
  · left
    simp [detail_url_of, hlen]

/-- C5: the parsed events count always equals the number of event-card
headings collected into the events list (in document order), the serialized
list is exactly their delimited join, and a page with zero event cards
yields count 0 and the empty string. -/
theorem events_count_matches_list (soup : DetailSoup) :
    (parse_detail_page soup).Events_Count = (event_names soup).length ∧
    (parse_detail_page soup).Events_List =
      String.intercalate "; " (event_names soup) ∧
    (event_names soup = [] →
      (parse_detail_page soup).Events_Count = 0 ∧
      (parse_detail_page soup).Events_List = "") := by
  refine ⟨rfl, rfl, fun h => ?_⟩
  have hc : (parse_detail_page soup).Events_Count = (event_names soup).length := rfl
  have hl : (parse_detail_page soup).Events_List =
      String.intercalate "; " (event_names soup) := rfl
  rw [hc, hl, h]
  exact ⟨rfl, rfl⟩

/-- Closed witness for the zero-event-cards case of C5. -/
theorem events_count_matches_list_witness :
    (parse_detail_page {}).Events_Count = 0 ∧
    (parse_detail_page {}).Events_List = "" :=
  (events_count_matches_list {}).2.2 rfl

/-! Section: email-priority lemmas for C3. -/

theorem process_paragraph_keeps_email (d : DetailDict) (t : String)
    (e : String) (h : d.Organizer_Email = some e) :
    (process_paragraph d t).Organizer_Email = some e := by
  unfold process_paragraph
  split_ifs with h1 h2 h3 h4 h5 h6 <;>
    first
      | exact h
      | (exfalso; rw [h] at h4; exact Option.noConfusion h4.2)

theorem foldl_paragraphs_keeps_email (ps : List String) (d : DetailDict)
    (e : String) (h : d.Organizer_Email = some e) :
    (ps.foldl process_paragraph d).Organizer_Email = some e := by
  induction ps generalizing d with
  | nil => exact h
  | cons p rest ih => exact ih _ (process_paragraph_keeps_email d p e h)

theorem firstNonEmptyMailto_ne_empty (l : List String) (e : String)
    (h : firstNonEmptyMailto l = some e) : e ≠ "" := by
  induction l with
  | nil => simp [firstNonEmptyMailto] at h
  | cons a t ih =>
    unfold firstNonEmptyMailto at h
    split_ifs at h with hx
    · exact ih h
    · cases h
      exact hx

theorem clubCardStage_keeps_email (cc : Option String) (d : DetailDict) :
    (clubCardStage cc d).Organizer_Email = d.Organizer_Email := by
  rcases cc with _ | card
  · rfl
  · cases hcode : searchWith tryCodeCompetition card.data <;>
      cases hcont : searchWith tryContact card.data <;>
      simp [clubCardStage, hcode, hcont]

theorem emailFallbackStage_skipped (soup : DetailSoup) (d : DetailDict)
    (e : String) (h : d.Organizer_Email = some e) (hne : e ≠ "") :
    emailFallbackStage soup d = d := by
  unfold emailFallbackStage
  rw [h]
  simp [hne]

/-- C3: a detail page whose practical-info section contains a successful
mailto link always reports that address as the organizer email, whatever
the paragraphs (conflicting Email labels included) and the rest of the page
contain: the mailto strategy has highest priority and, once it sets a
value, the label-paragraph and whole-section strategies are skipped. -/
theorem mailto_link_email_priority (soup : DetailSoup) (s : InfoSection)
    (e : String) (hs : soup.infoPratique = some s)
    (hm : mailto_email s = some e) :
    (parse_detail_page soup).Organizer_Email = e := by
  have hne : e ≠ "" := firstNonEmptyMailto_ne_empty _ e hm
  have h1 : (infoSectionStage soup).Organizer_Email = some e := by
    unfold infoSectionStage
    simp only [hs, hm]
    exact foldl_paragraphs_keeps_email s.paragraphs _ e rfl
  have h2 : emailFallbackStage soup (infoSectionStage soup) =
      infoSectionStage soup :=
    emailFallbackStage_skipped soup _ e h1 hne
  have h3 : (parse_detail_page soup).Organizer_Email =
      (clubCardStage soup.clubCard
        (emailFallbackStage soup (infoSectionStage soup))).Organizer_Email.getD "" :=
    rfl
  rw [h3, h2, clubCardStage_keeps_email, h1]
  rfl

/-- Closed witness for C3: a page with a mailto link and a conflicting
Email paragraph yields the mailto address. -/
theorem mailto_link_email_priority_witness :
    (parse_detail_page
      { infoPratique := some
          { anchorHrefs := [some "mailto:org@club.fr"]
            paragraphs := ["Email : autre@ailleurs.fr"]
            fullText := "Email : autre@ailleurs.fr" } }).Organizer_Email =
      "org@club.fr" :=
  mailto_link_email_priority
    { infoPratique := some
        { anchorHrefs := [some "mailto:org@club.fr"]
          paragraphs := ["Email : autre@ailleurs.fr"]
          fullText := "Email : autre@ailleurs.fr" } }
    { anchorHrefs := [some "mailto:org@club.fr"]
      paragraphs := ["Email : autre@ailleurs.fr"]
      fullText := "Email : autre@ailleurs.fr" }
    "org@club.fr" rfl (by decide)

/-! Section: enrichment-driver lemmas for C4, C8, C9. -/

theorem scrape_detail_pages_eq_go (fetchDetail : String → Option DetailSoup)
    (l : List Competition) :
    scrape_detail_pages fetchDetail l = scrape_detail_pages_go fetchDetail l := by
  cases l <;> rfl

theorem go_sleep_count (fetchDetail : String → Option DetailSoup)
    (l : List Competition) :
    countSleeps (scrape_detail_pages_go fetchDetail l).2 =
      (l.filter fun c => c.Detail_URL != "").length := by
  induction l with
  | nil => rfl
  | cons c rest ih =>
    by_cases hc : c.Detail_URL = "" <;>
      simp [scrape_detail_pages_go, countSleeps, List.filter_cons, hc] <;>
      simpa [countSleeps] using ih

/-- C4 counterexample: a single record with an empty detail URL is skipped
by `continue` before the `time.sleep` call, so no delay event is emitted
for it — the claimed one-delay-per-record count fails. -/
theorem delay_after_skipped_record_fails :
    ¬ countSleeps
        (scrape_detail_pages (fun _ => none) [{ Event := "course" }]).2 =
      ([({ Event := "course" } : Competition)]).length := by
  decide

/-- C4 amended: during detail enrichment, a fixed delay of `DEFAULT_DELAY`
seconds is observed after processing exactly those records whose
`detail_url` is non-empty; records skipped for lack of a URL produce no
delay. -/
theorem delay_per_fetched_record (fetchDetail : String → Option DetailSoup)
    (comps : List Competition) :
    countSleeps (scrape_detail_pages fetchDetail comps).2 =
      (comps.filter fun c => c.Detail_URL != "").length := by
  rw [scrape_detail_pages_eq_go]
  exact go_sleep_count fetchDetail comps

theorem go_length (fetchDetail : String → Option DetailSoup)
    (l : List Competition) :
    (scrape_detail_pages_go fetchDetail l).1.length = l.length := by
  induction l with
  | nil => rfl
  | cons c rest ih =>
    by_cases hc : c.Detail_URL = "" <;> simp [scrape_detail_pages_go, hc, ih]

theorem go_record_spec (fetchDetail : String → Option DetailSoup)
    (l : List Competition) :
    ∀ (i : Nat) (c : Competition), l[i]? = some c →
      ∃ c2, ((scrape_detail_pages_go fetchDetail l).1)[i]? = some c2 ∧
        listing_fields c2 = listing_fields c ∧
        (c2 = c ∨ ∃ d, scrape_detail_page fetchDetail c.Detail_URL = some d ∧
          c2 = updateCompetition c d) := by
  induction l with
  | nil => intro i c hc; simp at hc
  | cons a rest ih =>
    intro i c hc
    cases i with
    | zero =>
      simp only [List.getElem?_cons_zero, Option.some.injEq] at hc
      subst hc
      by_cases ha : a.Detail_URL = ""
      · exact ⟨a, by simp [scrape_detail_pages_go, ha], rfl, Or.inl rfl⟩
      · cases hfd : scrape_detail_page fetchDetail a.Detail_URL with
        | none =>
          exact ⟨a, by simp [scrape_detail_pages_go, ha, hfd], rfl, Or.inl rfl⟩
        | some d =>
          exact ⟨updateCompetition a d,
            by simp [scrape_detail_pages_go, ha, hfd], rfl, Or.inr ⟨d, rfl, rfl⟩⟩
    | succ i =>
      simp only [List.getElem?_cons_succ] at hc
      obtain ⟨c2, hg, hf, hd⟩ := ih i c hc
      by_cases ha : a.Detail_URL = "" <;>
        exact ⟨c2, by simp [scrape_detail_pages_go, ha, hg], hf, hd⟩

/-- C8: enrichment is a per-record soft failure — the output has one record
per input record, a record with an empty detail URL passes through
unchanged, and a record whose detail fetch fails is left unchanged, in both
cases without aborting the processing of the remaining records. -/
theorem go_pass_through (fetchDetail : String → Option DetailSoup)
    (l : List Competition) :
    ∀ (i : Nat) (c : Competition), l[i]? = some c →
      (c.Detail_URL = "" ∨ fetchDetail c.Detail_URL = none) →
      ((scrape_detail_pages_go fetchDetail l).1)[i]? = some c := by
  induction l with
  | nil => intro i c hc; simp at hc
  | cons a rest ih =>
    intro i c hc hfail
    cases i with
    | zero =>
      simp only [List.getElem?_cons_zero, Option.some.injEq] at hc
      subst hc
      rcases hfail with hurl | hnone
      · simp [scrape_detail_pages_go, hurl]
      · by_cases hurl : a.Detail_URL = ""
        · simp [scrape_detail_pages_go, hurl]
        · simp [scrape_detail_pages_go, hurl, scrape_detail_page, hnone]
    | succ i =>
      simp only [List.getElem?_cons_succ] at hc
      by_cases hurl : a.Detail_URL = "" <;>
        simp [scrape_detail_pages_go, hurl, ih i c hc hfail]

theorem enrichment_soft_failure (fetchDetail : String → Option DetailSoup)
    (comps : List Competition) :
    (scrape_detail_pages fetchDetail comps).1.length = comps.length ∧
    ∀ (i : Nat) (c : Competition), comps[i]? = some c →
      (c.Detail_URL = "" ∨ fetchDetail c.Detail_URL = none) →
      ((scrape_detail_pages fetchDetail comps).1)[i]? = some c := by
  rw [scrape_detail_pages_eq_go]
  exact ⟨go_length fetchDetail comps, go_pass_through fetchDetail comps⟩

/-- Closed witness for C8 at a one-record input with no detail URL. -/
theorem enrichment_soft_failure_witness :
    ((scrape_detail_pages (fun _ => none) [{ Event := "cross" }]).1)[0]? =
      some { Event := "cross" } :=
  (enrichment_soft_failure (fun _ => none) [{ Event := "cross" }]).2 0
    { Event := "cross" } rfl (Or.inl rfl)

/-- C9: the enrichment driver never modifies the listing attributes of any
record, and each output record is its input record either unchanged or
merged with exactly one successful detail-page result (which overwrites
only the ten enrichment attributes, as `updateCompetition` does). -/
theorem enrichment_frame (fetchDetail : String → Option DetailSoup)
    (comps : List Competition) :
    ∀ (i : Nat) (c : Competition), comps[i]? = some c →
      ∃ c2, ((scrape_detail_pages fetchDetail comps).1)[i]? = some c2 ∧
        listing_fields c2 = listing_fields c ∧
        (c2 = c ∨ ∃ d, scrape_detail_page fetchDetail c.Detail_URL = some d ∧
          c2 = updateCompetition c d) := by
  rw [scrape_detail_pages_eq_go]
  exact go_record_spec fetchDetail comps

/-- Closed witness for C9 at a one-record input. -/
theorem enrichment_frame_witness :
    ∃ c2, ((scrape_detail_pages (fun _ => none)
        [{ Event := "marathon" }]).1)[0]? = some c2 ∧
      listing_fields c2 = listing_fields { Event := "marathon" } ∧
      (c2 = { Event := "marathon" } ∨
        ∃ d, scrape_detail_page (fun _ => none)
            (Competition.Detail_URL { Event := "marathon" }) = some d ∧
          c2 = updateCompetition { Event := "marathon" } d) :=
  enrichment_frame (fun _ => none) [{ Event := "marathon" }] 0
    { Event := "marathon" } rfl

/-- C1: one step of the pagination loop — a failed fetch or an empty page
halts with the accumulator unchanged, a page shorter than
`COMPETITIONS_PER_PAGE` is appended and then halts, and a page of at least
the page size is appended and the loop continues at `page + 1`; moreover
the accumulated records of earlier pages are always an initial segment of
the final result, whatever the later pages do. -/
theorem pagination_step_behavior (fetchHtml : Nat → Option ListingPage)
    (fuel page : Nat) (acc : List Competition) :
    (paginate fetchHtml (fuel + 1) page acc =
      (if (scrape_page fetchHtml page).2 = false ∨
          (scrape_page fetchHtml page).1 = [] then acc
       else if (scrape_page fetchHtml page).1.length < COMPETITIONS_PER_PAGE then
         acc ++ (scrape_page fetchHtml page).1
       else
         paginate fetchHtml fuel (page + 1)
           (acc ++ (scrape_page fetchHtml page).1))) ∧
    (∃ t, paginate fetchHtml fuel page acc = acc ++ t) := by
  constructor
  · rfl
  · induction fuel generalizing page acc with
    | zero => exact ⟨[], by simp [paginate]⟩
    | succ n ih =>
      rcases hsp : scrape_page fetchHtml page with ⟨comps, succ⟩
      by_cases h1 : succ = false ∨ comps = []
      · exact ⟨[], by simp [paginate, hsp, h1]⟩
      · by_cases h2 : comps.length < COMPETITIONS_PER_PAGE
        · exact ⟨comps, by simp [paginate, hsp, h1, h2]⟩
        · obtain ⟨t, ht⟩ := ih (page + 1) (acc ++ comps)
          exact ⟨comps ++ t,
            by simp [paginate, hsp, h1, h2, ht, List.append_assoc]⟩

/-! Section: batch-splitter lemmas for C2 and C10. -/

theorem split_batches_of_le {endD : Int} {bd : Nat} {cur : Int}
    (h : cur ≤ endD) :
    split_batches endD bd cur =
      (cur, min (cur + bd) endD) ::
        split_batches endD bd (min (cur + bd) endD + 1) := by
  rw [split_batches]
  simp [h]

theorem split_batches_of_gt {endD : Int} {bd : Nat} {cur : Int}
    (h : ¬ cur ≤ endD) :
    split_batches endD bd cur = [] := by
  rw [split_batches]
  simp [h]

theorem split_batches_form (endD : Int) (bd : Nat) (cur : Int) :
    ∀ b ∈ split_batches endD bd cur,
      cur ≤ b.1 ∧ b.2 = min (b.1 + bd) endD ∧ b.1 ≤ b.2 ∧ b.2 ≤ endD := by
  by_cases h : cur ≤ endD
  · rw [split_batches_of_le h]
    intro b hb
    rcases List.mem_cons.mp hb with rfl | hb
    · exact ⟨le_refl _, rfl, by omega, by omega⟩
    · have := split_batches_form endD bd (min (cur + bd) endD + 1) b hb
      exact ⟨by omega, this.2.1, this.2.2.1, this.2.2.2⟩
  · rw [split_batches_of_gt h]
    intro b hb
    simp at hb
termination_by (endD + 1 - cur).toNat
decreasing_by
  simp_wf
  omega

theorem split_batches_head_fst (endD : Int) (bd : Nat) (cur : Int) :
    ∀ y, (split_batches endD bd cur).head? = some y → y.1 = cur := by
  intro y hy
  by_cases h : cur ≤ endD
  · rw [split_batches_of_le h] at hy
    simp at hy
    rw [← hy]
  · rw [split_batches_of_gt h] at hy
    simp at hy

theorem split_batches_chain (endD : Int) (bd : Nat) (cur : Int) :
    List.Chain' (fun a b => b.1 = a.2 + 1) (split_batches endD bd cur) := by
  by_cases h : cur ≤ endD
  · rw [split_batches_of_le h]
    refine List.chain'_cons'.mpr ⟨?_, split_batches_chain endD bd _⟩
    intro y hy
    exact split_batches_head_fst endD bd _ y hy
  · rw [split_batches_of_gt h]
    exact List.chain'_nil
termination_by (endD + 1 - cur).toNat
decreasing_by
  simp_wf
  omega

theorem split_batches_cover (endD : Int) (bd : Nat) (cur : Int) (d : Int) :
    (cur ≤ d ∧ d ≤ endD) ↔
      ∃ b ∈ split_batches endD bd cur, b.1 ≤ d ∧ d ≤ b.2 := by
  by_cases h : cur ≤ endD
  · rw [split_batches_of_le h]
    constructor
    · rintro ⟨h1, h2⟩
      by_cases hd : d ≤ min (cur + bd) endD
      · exact ⟨(cur, min (cur + bd) endD), List.mem_cons_self _ _, h1, hd⟩
      · obtain ⟨b, hb, hbd⟩ :=
          (split_batches_cover endD bd (min (cur + bd) endD + 1) d).mp
            ⟨by omega, h2⟩
        exact ⟨b, List.mem_cons_of_mem _ hb, hbd⟩
    · rintro ⟨b, hb, hb1, hb2⟩
      rcases List.mem_cons.mp hb with rfl | hb
      · constructor
        · exact hb1
        · omega
      · have hf := split_batches_form endD bd (min (cur + bd) endD + 1) b hb
        constructor
        · omega
        · omega
  · rw [split_batches_of_gt h]
    simp
    omega
termination_by (endD + 1 - cur).toNat
decreasing_by
  simp_wf
  omega

theorem split_batches_pairwise (endD : Int) (bd : Nat) (cur : Int) :
    List.Pairwise (fun a b => a.2 < b.1) (split_batches endD bd cur) := by
  by_cases h : cur ≤ endD
  · rw [split_batches_of_le h]
    refine List.pairwise_cons.mpr ⟨?_, split_batches_pairwise endD bd _⟩
    intro b hb
    have := split_batches_form endD bd (min (cur + bd) endD + 1) b hb
    simp only []
    omega
  · rw [split_batches_of_gt h]
    exact List.Pairwise.nil
termination_by (endD + 1 - cur).toNat
decreasing_by
  simp_wf
  omega

theorem split_batches_length_le (endD : Int) (bd : Nat) (cur : Int) :
    (split_batches endD bd cur).length ≤ (endD + 1 - cur).toNat := by
  by_cases h : cur ≤ endD
  · rw [split_batches_of_le h]
    have ih := split_batches_length_le endD bd (min (cur + bd) endD + 1)
    simp only [List.length_cons]
    omega
  · rw [split_batches_of_gt h]
    simp
termination_by (endD + 1 - cur).toNat
decreasing_by
  simp_wf
  omega

theorem split_batches_concrete_example :
    split_batches (daysFromCivil 2026 1 31) 30 (daysFromCivil 2025 12 21) =
      [(daysFromCivil 2025 12 21, daysFromCivil 2026 1 20),
       (daysFromCivil 2026 1 21, daysFromCivil 2026 1 31)] := by
  have e1 : daysFromCivil 2025 12 21 = 20443 := by decide
  have e2 : daysFromCivil 2026 1 20 = 20473 := by decide
  have e3 : daysFromCivil 2026 1 21 = 20474 := by decide
  have e4 : daysFromCivil 2026 1 31 = 20484 := by decide
  rw [e1, e2, e3, e4]
  rw [split_batches_of_le (by decide)]
  norm_num
  rw [split_batches_of_le (by decide)]
  norm_num
  exact split_batches_of_gt (by decide)

/-- C2: for a parsed range with start ≤ end and batch_days ≥ 1, batch mode
produces exactly the consecutive sub-ranges `(cur, min (cur + batch_days)
end)` with the next batch starting one day after the previous end: every
batch is of that form and stays inside the range, consecutive batches are
adjacent (no gap, no overlap), the first batch starts at the range start,
the batches cover exactly the days of `[start, end]`, batches are pairwise
disjoint, and the range 2025-12-21 .. 2026-01-31 with batch_days = 30
splits into exactly 2025-12-21 .. 2026-01-20 and 2026-01-21 ..
2026-01-31. -/
theorem batch_mode_splits_range (start endD : Int) (batch_days : Nat)
    (hse : start ≤ endD) (hbd : 1 ≤ batch_days) :
    (∀ b ∈ split_batches endD batch_days start,
        b.2 = min (b.1 + batch_days) endD ∧ b.1 ≤ b.2 ∧ b.2 ≤ endD) ∧
    List.Chain' (fun a b => b.1 = a.2 + 1)
      (split_batches endD batch_days start) ∧
    (split_batches endD batch_days start).head? =
      some (start, min (start + batch_days) endD) ∧
    (∀ d : Int, (start ≤ d ∧ d ≤ endD) ↔
      ∃ b ∈ split_batches endD batch_days start, b.1 ≤ d ∧ d ≤ b.2) ∧
    List.Pairwise (fun a b => a.2 < b.1)
      (split_batches endD batch_days start) ∧
    split_batches (daysFromCivil 2026 1 31) 30 (daysFromCivil 2025 12 21) =
      [(daysFromCivil 2025 12 21, daysFromCivil 2026 1 20),
       (daysFromCivil 2026 1 21, daysFromCivil 2026 1 31)] := by
  refine ⟨?_, split_batches_chain endD batch_days start, ?_,
    fun d => split_batches_cover endD batch_days start d,
    split_batches_pairwise endD batch_days start,
    split_batches_concrete_example⟩
  · intro b hb
    exact (split_batches_form endD batch_days start b hb).2
  · rw [split_batches_of_le hse]
    rfl

/-- Closed witness for C2: the concrete split of the default date range. -/
theorem batch_mode_splits_range_witness :
    split_batches (daysFromCivil 2026 1 31) 30 (daysFromCivil 2025 12 21) =
      [(daysFromCivil 2025 12 21, daysFromCivil 2026 1 20),
       (daysFromCivil 2026 1 21, daysFromCivil 2026 1 31)] :=
  (batch_mode_splits_range (daysFromCivil 2025 12 21) (daysFromCivil 2026 1 31)
    30 (by decide) (by decide)).2.2.2.2.2

/-- C10: the batch-mode date loop always terminates — the number of batches
it generates is bounded by the number of days in the parsed range. -/
theorem batch_loop_terminates (start endD : Int) (batch_days : Nat)
    (hse : start ≤ endD) (hbd : 1 ≤ batch_days) :
    (split_batches endD batch_days start).length ≤ (endD - start + 1).toNat := by
  have h := split_batches_length_le endD batch_days start
  omega

/-- Closed witness for C10 on a six-day range with one-day batches. -/
theorem batch_loop_terminates_witness :
    (split_batches 5 1 0).length ≤ ((5 : Int) - 0 + 1).toNat :=
  batch_loop_terminates 0 5 1 (by decide) (by decide)

end Athle
